import Mathlib

/-!
Shallow embedding of the `idable` crate (src/lib.rs): a plain atomic
sequence generator `Seq` and a timestamp+sequence id generator
`TimestampSeq`.  Machine integers (`u64`) are modelled as `Nat` with
explicit reduction modulo `2 ^ 64` wherever the Rust code can wrap.
The wall clock (`get_timestamp`) is modelled as a function from the
index of the read (the number of clock reads performed so far) to the
raw millisecond value; the `as_millis() as u64` cast is the reduction
modulo `2 ^ 64`.  The busy-wait loop of `wait_next_millis` takes
explicit fuel; `none` means the loop did not exit within `fuel` reads.
-/

namespace Idable

/-- Modulus of the Rust `u64` type. -/
def U64 : Nat := 2 ^ 64

/-- `pub const EPOCH: u64 = 1637806706000;` -/
def EPOCH : Nat := 1637806706000

/-- `const SEQUENCE_BITS: u8 = 12;` (non-test builds).  The embedding
keeps the bit width as a parameter `sb`, instantiated at 12 for the
production configuration and at 1 for the test configuration. -/
def SEQUENCE_BITS_PROD : Nat := 12

/-- `const SEQUENCE_BITS: u8 = 1;` (test builds). -/
def SEQUENCE_BITS_TEST : Nat := 1

/-- `const TIMESTAMP_SHIFT: u8 = SEQUENCE_BITS;` -/
def TIMESTAMP_SHIFT (sb : Nat) : Nat := sb

/-- `const SEQUENCE_MASK: u64 = (1 << SEQUENCE_BITS) - 1;` -/
def SEQUENCE_MASK (sb : Nat) : Nat := (1 <<< sb) - 1

/-- Wrapping `u64` subtraction `a - b` (release-mode Rust semantics of
the subtraction in `next_id`). -/
def wrapSub (a b : Nat) : Nat := (a + (U64 - b % U64)) % U64

/-- `(new_timestamp - EPOCH) << TIMESTAMP_SHIFT | sequence` in `u64`
arithmetic: wrapping subtraction, shift truncated to 64 bits, then
bitwise or. -/
def packId (sb t sequence : Nat) : Nat :=
  ((wrapSub t EPOCH) <<< TIMESTAMP_SHIFT sb) % U64 ||| sequence

/-- `pub struct Seq(SIDGEN);` — the `AtomicU64` content. -/
structure Seq where
  counter : Nat
  deriving DecidableEq

/-- `Seq::new()`: counter 0. -/
def Seq.new : Seq := ⟨0⟩

/-- `impl From<SID> for Seq`: a generator seeded at `value`. -/
def Seq.fromVal (value : Nat) : Seq := ⟨value⟩

/-- `Seq::next_id`: `self.0.fetch_add(1, SeqCst)` — returns the value
before the increment; the stored counter wraps modulo `2 ^ 64`. -/
def Seq.next_id (s : Seq) : Nat × Seq := (s.counter, ⟨(s.counter + 1) % U64⟩)

/-- `Seq::reset`: `self.0.store(0, Release)`. -/
def Seq.reset (_ : Seq) : Seq := ⟨0⟩

/-- Run `n` sequential calls of `Seq.next_id`, collecting the returned
ids and the final state. -/
def Seq.run : Nat → Seq → List Nat × Seq
  | 0, s => ([], s)
  | n + 1, s =>
    let p := s.next_id
    let q := Seq.run n p.2
    (p.1 :: q.1, q.2)

/-- `pub struct TimestampSeq { sequence, last_cycle_timestamp }` — the
contents of the two `AtomicU64` fields. -/
structure TimestampSeq where
  sequence : Nat
  last_cycle_timestamp : Nat
  deriving DecidableEq

/-- `TimestampSeq::new()` / `Default`: both fields 0. -/
def TimestampSeq.new : TimestampSeq := ⟨0, 0⟩

/-- `get_timestamp()` at read index `k` of the clock `clock`. -/
def getTimestamp (clock : Nat → Nat) (k : Nat) : Nat := clock k % U64

/-- The loop `while get_timestamp() <= last_timestamp {}`: reads the
clock at `k, k + 1, …` and returns the read cursor just after the
first reading strictly above `last`; `none` when all `fuel` reads
failed to exceed `last`. -/
def spinWait (clock : Nat → Nat) (last : Nat) : Nat → Nat → Option Nat
  | _, 0 => none
  | k, fuel + 1 =>
    if getTimestamp clock k ≤ last then spinWait clock last (k + 1) fuel
    else some (k + 1)

/-- `TimestampSeq::wait_next_millis`: loads `last_cycle_timestamp` and
spins until the clock strictly exceeds it. -/
def TimestampSeq.wait_next_millis (s : TimestampSeq) (clock : Nat → Nat)
    (k fuel : Nat) : Option Nat :=
  spinWait clock s.last_cycle_timestamp k fuel

/-- Stored result of `AtomicU64::fetch_max`: the maximum of the current
content and the operand. -/
def fetchMax (cur new : Nat) : Nat := max cur new

/-- `TimestampSeq::next_id`, sequential semantics.  `k` is the clock
read cursor before the call; the result is `some (id, s2, k2)` with
`k2` the cursor after the call, or `none` when the busy wait ran out
of fuel.  The branch structure mirrors the source: mask the
pre-increment sequence counter, read the clock, and on a full cycle
(masked sequence 0) possibly wait for the next millisecond and ratchet
`last_cycle_timestamp` with `fetch_max`. -/
def TimestampSeq.next_id (sb : Nat) (clock : Nat → Nat) (fuel : Nat)
    (s : TimestampSeq) (k : Nat) : Option (Nat × TimestampSeq × Nat) :=
  let sequence := s.sequence &&& SEQUENCE_MASK sb
  let seqAfter := (s.sequence + 1) % U64
  let new_timestamp := getTimestamp clock k
  if sequence = 0 then
    if s.last_cycle_timestamp = new_timestamp then
      match TimestampSeq.wait_next_millis ⟨seqAfter, s.last_cycle_timestamp⟩
          clock (k + 1) fuel with
      | none => none
      | some k1 =>
        let t1 := getTimestamp clock k1
        some (packId sb t1 sequence,
              ⟨seqAfter, fetchMax s.last_cycle_timestamp t1⟩, k1 + 1)
    else
      some (packId sb new_timestamp sequence,
            ⟨seqAfter, fetchMax s.last_cycle_timestamp new_timestamp⟩, k + 1)
  else
    some (packId sb new_timestamp sequence,
          ⟨seqAfter, s.last_cycle_timestamp⟩, k + 1)

/-- `pub fn into_parts(timestamp: u64) -> (u64, u64)`. -/
def into_parts (sb : Nat) (timestamp : Nat) : Nat × Nat :=
  (timestamp >>> TIMESTAMP_SHIFT sb, timestamp &&& SEQUENCE_MASK sb)

/-- Run `n` sequential calls of `TimestampSeq.next_id`, collecting the
returned ids, the final state and the final read cursor. -/
def runIds (sb : Nat) (clock : Nat → Nat) (fuel : Nat) :
    Nat → TimestampSeq → Nat → Option (List Nat × TimestampSeq × Nat)
  | 0, s, k => some ([], s, k)
  | n + 1, s, k =>
    match TimestampSeq.next_id sb clock fuel s k with
    | none => none
    | some (id, s1, k1) =>
      match runIds sb clock fuel n s1 k1 with
      | none => none
      | some (ids, s2, k2) => some (id :: ids, s2, k2)

/-- A live clock advancing one millisecond per read. -/
def linClock : Nat → Nat := fun j => EPOCH + j

/-- A clock stuck one millisecond before `EPOCH`. -/
def preEpochClock : Nat → Nat := fun _ => EPOCH - 1

/-- A non-decreasing clock that jumps five milliseconds after the very
first read and then stalls. -/
def jumpStallClock : Nat → Nat := fun k => if k = 0 then EPOCH else EPOCH + 5

/-- A non-decreasing clock that stays at `EPOCH` for three reads and
then ticks once. -/
def stepClock : Nat → Nat := fun k => if k ≤ 2 then EPOCH else EPOCH + 1

/-! ### Arithmetic helper lemmas -/

theorem U64_pos : 0 < U64 := by norm_num [U64]

theorem EPOCH_lt_U64 : EPOCH < U64 := by norm_num [EPOCH, U64]

theorem SEQUENCE_MASK_eq (sb : Nat) : SEQUENCE_MASK sb = 2 ^ sb - 1 := by
  simp [SEQUENCE_MASK, Nat.shiftLeft_eq]

theorem getTimestamp_lt (clock : Nat → Nat) (k : Nat) :
    getTimestamp clock k < U64 :=
  Nat.mod_lt _ U64_pos

/-- Bitwise or of a value shifted past `n` bits with a value below
`2 ^ n` is their sum. -/
theorem or_shiftLeft_eq_add :
    ∀ (n t s : Nat), s < 2 ^ n → (t <<< n) ||| s = t * 2 ^ n + s := by
  intro n
  induction n with
  | zero =>
    intro t s hs
    have h1 : (2 : Nat) ^ 0 = 1 := pow_zero 2
    have hs0 : s = 0 := by omega
    subst hs0
    simp
  | succ n ih =>
    intro t s hs
    have hshift : t <<< (n + 1) = (t <<< n) * 2 := by
      rw [Nat.shiftLeft_eq, Nat.shiftLeft_eq, pow_succ, ← Nat.mul_assoc]
    have hdiv : ((t <<< (n + 1)) ||| s) / 2 = (t <<< n) ||| (s / 2) := by
      rw [Nat.or_div_two, hshift, Nat.mul_div_cancel _ (by norm_num)]
    have hzero : (t <<< (n + 1)) % 2 = 0 := by
      rw [hshift, Nat.mul_mod_left]
    have hmod : ((t <<< (n + 1)) ||| s) % 2 = s % 2 := by
      rcases Nat.mod_two_eq_zero_or_one s with h | h
      · have hne : ¬ ((t <<< (n + 1)) ||| s) % 2 = 1 := by
          rw [Nat.or_mod_two_eq_one]
          omega
        have hlt2 : ((t <<< (n + 1)) ||| s) % 2 < 2 := Nat.mod_lt _ (by norm_num)
        omega
      · have : ((t <<< (n + 1)) ||| s) % 2 = 1 := by
          rw [Nat.or_mod_two_eq_one]
          omega
        omega
    have hs2 : s / 2 < 2 ^ n := by
      have h1 : (2 : Nat) ^ (n + 1) = 2 ^ n * 2 := pow_succ 2 n
      omega
    have hrec := ih t (s / 2) hs2
    have hsplit := Nat.div_add_mod ((t <<< (n + 1)) ||| s) 2
    have hssplit := Nat.div_add_mod s 2
    have h1 : (2 : Nat) ^ (n + 1) = 2 ^ n * 2 := pow_succ 2 n
    rw [hdiv, hrec] at hsplit
    rw [hmod] at hsplit
    omega

/-- Wrapping subtraction agrees with truncated subtraction when the
minuend is at least `EPOCH` and below `2 ^ 64`. -/
theorem wrapSub_epoch_eq (t : Nat) (h1 : EPOCH ≤ t) (h2 : t < U64) :
    wrapSub t EPOCH = t - EPOCH := by
  unfold wrapSub
  rw [Nat.mod_eq_of_lt EPOCH_lt_U64]
  have hE : EPOCH ≤ U64 := Nat.le_of_lt EPOCH_lt_U64
  have heq : t + (U64 - EPOCH) = (t - EPOCH) + U64 := by omega
  rw [heq, Nat.add_mod_right]
  exact Nat.mod_eq_of_lt (by omega)

theorem wrapSub_lt (a b : Nat) : wrapSub a b < U64 :=
  Nat.mod_lt _ U64_pos

/-- The packed id under the natural bounds: no epoch underflow and no
shift overflow. -/
theorem packId_eq (sb t seq : Nat) (hsb1 : 1 ≤ sb) (hsb2 : sb ≤ 64)
    (ht1 : EPOCH ≤ t) (ht2 : t < EPOCH + 2 ^ (64 - sb)) (hseq : seq < 2 ^ sb) :
    packId sb t seq = (t - EPOCH) * 2 ^ sb + seq := by
  have hsmall : (2 : Nat) ^ (64 - sb) ≤ 2 ^ 63 :=
    Nat.pow_le_pow_right (by norm_num) (by omega)
  have hEU : EPOCH + 2 ^ 63 < U64 := by
    unfold EPOCH U64
    norm_num
  have htU : t < U64 := by omega
  have hw : wrapSub t EPOCH = t - EPOCH := wrapSub_epoch_eq t ht1 htU
  have hbound : (t - EPOCH) * 2 ^ sb < U64 := by
    have h1 : t - EPOCH < 2 ^ (64 - sb) := by omega
    have h2 : (t - EPOCH) * 2 ^ sb < 2 ^ (64 - sb) * 2 ^ sb :=
      mul_lt_mul_of_pos_right h1 (pow_pos (by norm_num) sb)
    have h3 : (2 : Nat) ^ (64 - sb) * 2 ^ sb = 2 ^ 64 := by
      rw [← pow_add, Nat.sub_add_cancel hsb2]
    rw [h3] at h2
    exact h2
  have horsl := or_shiftLeft_eq_add sb (t - EPOCH) seq hseq
  rw [Nat.shiftLeft_eq] at horsl
  unfold packId TIMESTAMP_SHIFT
  rw [hw, Nat.shiftLeft_eq, Nat.mod_eq_of_lt hbound, horsl]

/-- The low `sb` bits of a packed id recover the masked sequence. -/
theorem packId_mod (sb t seq : Nat) (hsb : sb ≤ 64) (hseq : seq < 2 ^ sb) :
    packId sb t seq % 2 ^ sb = seq := by
  unfold packId TIMESTAMP_SHIFT
  have hU : U64 = 2 ^ sb * 2 ^ (64 - sb) := by
    rw [U64, ← pow_add, Nat.add_sub_cancel' hsb]
  have horsl := or_shiftLeft_eq_add sb (wrapSub t EPOCH % 2 ^ (64 - sb)) seq hseq
  rw [Nat.shiftLeft_eq] at horsl
  rw [Nat.shiftLeft_eq, Nat.mul_comm (wrapSub t EPOCH) (2 ^ sb), hU,
    Nat.mul_mod_mul_left, Nat.mul_comm (2 ^ sb) (wrapSub t EPOCH % 2 ^ (64 - sb)),
    horsl, Nat.mul_comm (wrapSub t EPOCH % 2 ^ (64 - sb)) (2 ^ sb),
    Nat.mul_add_mod]
  exact Nat.mod_eq_of_lt hseq

/-! ### Behaviour of the busy-wait loop -/

/-- When the loop exits, the last reading consumed strictly exceeded
`last`, and every earlier reading of the loop did not. -/
theorem spinWait_some_spec (clock : Nat → Nat) (last : Nat) :
    ∀ fuel k k1, spinWait clock last k fuel = some k1 →
      k + 1 ≤ k1 ∧ last < getTimestamp clock (k1 - 1) ∧
        ∀ j, k ≤ j → j < k1 - 1 → getTimestamp clock j ≤ last := by
  intro fuel
  induction fuel with
  | zero =>
    intro k k1 h
    simp [spinWait] at h
  | succ fuel ih =>
    intro k k1 h
    rw [spinWait] at h
    by_cases hc : getTimestamp clock k ≤ last
    · rw [if_pos hc] at h
      obtain ⟨h1, h2, h3⟩ := ih (k + 1) k1 h
      refine ⟨by omega, h2, ?_⟩
      intro j hj1 hj2
      rcases Nat.eq_or_lt_of_le hj1 with he | hlt
      · rw [← he]
        exact hc
      · exact h3 j hlt hj2
    · rw [if_neg hc] at h
      have hk : k1 = k + 1 := by
        injection h with h
        omega
      subst hk
      refine ⟨Nat.le_refl _, by simpa using Nat.lt_of_not_le hc, ?_⟩
      intro j hj1 hj2
      omega

/-- Liveness: a reading above `last` within fuel range makes the loop
exit. -/
theorem spinWait_isSome (clock : Nat → Nat) (last : Nat) :
    ∀ fuel k j, k ≤ j → last < getTimestamp clock j → j < k + fuel →
      (spinWait clock last k fuel).isSome := by
  intro fuel
  induction fuel with
  | zero =>
    intro k j h1 h2 h3
    omega
  | succ fuel ih =>
    intro k j h1 h2 h3
    rw [spinWait]
    by_cases hc : getTimestamp clock k ≤ last
    · rw [if_pos hc]
      have hne : j ≠ k := by
        intro he
        rw [he] at h2
        omega
      exact ih (k + 1) j (by omega) h2 (by omega)
    · rw [if_neg hc]
      rfl

/-! ### Path lemmas for one call of next_id -/

/-- Non-rollover call (masked sequence nonzero): one clock read, no
touch of `last_cycle_timestamp`. -/
theorem next_id_masked_ne (sb : Nat) (clock : Nat → Nat) (fuel : Nat)
    (s : TimestampSeq) (k : Nat) (h : s.sequence &&& SEQUENCE_MASK sb ≠ 0) :
    TimestampSeq.next_id sb clock fuel s k =
      some (packId sb (getTimestamp clock k) (s.sequence &&& SEQUENCE_MASK sb),
        ⟨(s.sequence + 1) % U64, s.last_cycle_timestamp⟩, k + 1) := by
  simp only [TimestampSeq.next_id]
  rw [if_neg h]

/-- Rollover call whose initial reading differs from the stored
timestamp: no wait; ratchet with the initial reading. -/
theorem next_id_cycle_nowait (sb : Nat) (clock : Nat → Nat) (fuel : Nat)
    (s : TimestampSeq) (k : Nat) (h0 : s.sequence &&& SEQUENCE_MASK sb = 0)
    (hne : s.last_cycle_timestamp ≠ getTimestamp clock k) :
    TimestampSeq.next_id sb clock fuel s k =
      some (packId sb (getTimestamp clock k) 0,
        ⟨(s.sequence + 1) % U64,
          fetchMax s.last_cycle_timestamp (getTimestamp clock k)⟩, k + 1) := by
  simp only [TimestampSeq.next_id]
  rw [h0, if_pos rfl, if_neg hne]

/-- Rollover call whose initial reading equals the stored timestamp:
busy wait, then re-read and ratchet with the re-read value. -/
theorem next_id_cycle_wait (sb : Nat) (clock : Nat → Nat) (fuel : Nat)
    (s : TimestampSeq) (k k1 : Nat) (h0 : s.sequence &&& SEQUENCE_MASK sb = 0)
    (heq : s.last_cycle_timestamp = getTimestamp clock k)
    (hw : spinWait clock s.last_cycle_timestamp (k + 1) fuel = some k1) :
    TimestampSeq.next_id sb clock fuel s k =
      some (packId sb (getTimestamp clock k1) 0,
        ⟨(s.sequence + 1) % U64,
          fetchMax s.last_cycle_timestamp (getTimestamp clock k1)⟩, k1 + 1) := by
  simp only [TimestampSeq.next_id, TimestampSeq.wait_next_millis]
  rw [h0, if_pos rfl, if_pos heq, hw]

/-- Rollover call whose busy wait runs out of fuel. -/
theorem next_id_cycle_wait_none (sb : Nat) (clock : Nat → Nat) (fuel : Nat)
    (s : TimestampSeq) (k : Nat) (h0 : s.sequence &&& SEQUENCE_MASK sb = 0)
    (heq : s.last_cycle_timestamp = getTimestamp clock k)
    (hw : spinWait clock s.last_cycle_timestamp (k + 1) fuel = none) :
    TimestampSeq.next_id sb clock fuel s k = none := by
  simp only [TimestampSeq.next_id, TimestampSeq.wait_next_millis]
  rw [h0, if_pos rfl, if_pos heq, hw]

/-- Characterization of a completed call: the returned id packs the
final clock reading of the call (index `k1 - 1`) with the masked
pre-increment counter; the counter always advances by one modulo
`2 ^ 64`; `last_cycle_timestamp` is ratcheted on a rollover call and
untouched otherwise. -/
theorem next_id_some_parts (sb : Nat) (clock : Nat → Nat) (fuel : Nat)
    (s : TimestampSeq) (k : Nat) (id : Nat) (s1 : TimestampSeq) (k1 : Nat)
    (h : TimestampSeq.next_id sb clock fuel s k = some (id, s1, k1)) :
    id = packId sb (getTimestamp clock (k1 - 1))
        (s.sequence &&& SEQUENCE_MASK sb) ∧
    s1.sequence = (s.sequence + 1) % U64 ∧
    k + 1 ≤ k1 ∧
    (s.sequence &&& SEQUENCE_MASK sb = 0 →
      s1.last_cycle_timestamp =
        fetchMax s.last_cycle_timestamp (getTimestamp clock (k1 - 1))) ∧
    (s.sequence &&& SEQUENCE_MASK sb ≠ 0 →
      s1.last_cycle_timestamp = s.last_cycle_timestamp ∧ k1 = k + 1) := by
  by_cases h0 : s.sequence &&& SEQUENCE_MASK sb = 0
  · by_cases heq : s.last_cycle_timestamp = getTimestamp clock k
    · cases hw : spinWait clock s.last_cycle_timestamp (k + 1) fuel with
      | none =>
        rw [next_id_cycle_wait_none sb clock fuel s k h0 heq hw] at h
        exact absurd h (by simp)
      | some kw =>
        rw [next_id_cycle_wait sb clock fuel s k kw h0 heq hw] at h
        simp only [Option.some.injEq, Prod.mk.injEq] at h
        obtain ⟨hid, hst, hk⟩ := h
        obtain ⟨hge, _, _⟩ := spinWait_some_spec clock s.last_cycle_timestamp
          fuel (k + 1) kw hw
        have hk1 : k1 - 1 = kw := by omega
        refine ⟨?_, ?_, by omega, ?_, ?_⟩
        · rw [← hid, h0, hk1]
        · rw [← hst]
        · intro _
          rw [← hst, hk1]
        · intro hne
          exact absurd h0 hne
    · rw [next_id_cycle_nowait sb clock fuel s k h0 heq] at h
      simp only [Option.some.injEq, Prod.mk.injEq] at h
      obtain ⟨hid, hst, hk⟩ := h
      have hk1 : k1 - 1 = k := by omega
      refine ⟨?_, ?_, by omega, ?_, ?_⟩
      · rw [← hid, h0, hk1]
      · rw [← hst]
      · intro _
        rw [← hst, hk1]
      · intro hne
        exact absurd h0 hne
  · rw [next_id_masked_ne sb clock fuel s k h0] at h
    simp only [Option.some.injEq, Prod.mk.injEq] at h
    obtain ⟨hid, hst, hk⟩ := h
    have hk1 : k1 - 1 = k := by omega
    refine ⟨?_, ?_, by omega, ?_, ?_⟩
    · rw [← hid, hk1]
    · rw [← hst]
    · intro hz
      exact absurd hz h0
    · intro _
      exact ⟨by rw [← hst], by omega⟩

/-- Monotone raw clock below the `u64` range gives monotone readings. -/
theorem getTimestamp_mono (clock : Nat → Nat)
    (hmono : ∀ i, clock i ≤ clock (i + 1)) (hlt : ∀ i, clock i < U64) :
    ∀ i j, i ≤ j → getTimestamp clock i ≤ getTimestamp clock j := by
  intro i j hij
  have hm : Monotone clock := monotone_nat_of_le_succ hmono
  unfold getTimestamp
  rw [Nat.mod_eq_of_lt (hlt i), Nat.mod_eq_of_lt (hlt j)]
  exact hm hij

/-- On a rollover call whose initial reading is at least the stored
timestamp, the final reading of the call strictly exceeds the stored
timestamp (by the wait loop when the reading had not advanced, by the
inequality itself otherwise). -/
theorem next_id_cycle_final_gt (sb : Nat) (clock : Nat → Nat) (fuel : Nat)
    (s : TimestampSeq) (k : Nat) (id : Nat) (s1 : TimestampSeq) (k1 : Nat)
    (h : TimestampSeq.next_id sb clock fuel s k = some (id, s1, k1))
    (h0 : s.sequence &&& SEQUENCE_MASK sb = 0)
    (hge : s.last_cycle_timestamp ≤ getTimestamp clock k)
    (hmono : ∀ i, clock i ≤ clock (i + 1)) (hlt : ∀ i, clock i < U64) :
    s.last_cycle_timestamp < getTimestamp clock (k1 - 1) := by
  by_cases heq : s.last_cycle_timestamp = getTimestamp clock k
  · cases hw : spinWait clock s.last_cycle_timestamp (k + 1) fuel with
    | none =>
      rw [next_id_cycle_wait_none sb clock fuel s k h0 heq hw] at h
      exact absurd h (by simp)
    | some kw =>
      rw [next_id_cycle_wait sb clock fuel s k kw h0 heq hw] at h
      simp only [Option.some.injEq, Prod.mk.injEq] at h
      obtain ⟨_, _, hk⟩ := h
      obtain ⟨hge2, hgt, _⟩ := spinWait_some_spec clock s.last_cycle_timestamp
        fuel (k + 1) kw hw
      have hmm : getTimestamp clock (kw - 1) ≤ getTimestamp clock kw :=
        getTimestamp_mono clock hmono hlt (kw - 1) kw (by omega)
      have hk1 : k1 - 1 = kw := by omega
      rw [hk1]
      omega
  · rw [next_id_cycle_nowait sb clock fuel s k h0 heq] at h
    simp only [Option.some.injEq, Prod.mk.injEq] at h
    obtain ⟨_, _, hk⟩ := h
    have hk1 : k1 - 1 = k := by omega
    rw [hk1]
    omega

/-! ### Sequential runs -/

theorem runIds_zero (sb : Nat) (clock : Nat → Nat) (fuel : Nat)
    (s : TimestampSeq) (k : Nat) :
    runIds sb clock fuel 0 s k = some ([], s, k) := rfl

/-- A completed run of `n + 1` calls decomposes into a completed first
call and a completed run of `n` calls. -/
theorem runIds_succ_some (sb : Nat) (clock : Nat → Nat) (fuel : Nat)
    (n : Nat) (s : TimestampSeq) (k : Nat) (ids : List Nat)
    (s2 : TimestampSeq) (k2 : Nat)
    (h : runIds sb clock fuel (n + 1) s k = some (ids, s2, k2)) :
    ∃ id s1 k1 rest,
      TimestampSeq.next_id sb clock fuel s k = some (id, s1, k1) ∧
      runIds sb clock fuel n s1 k1 = some (rest, s2, k2) ∧
      ids = id :: rest := by
  simp only [runIds] at h
  split at h
  · exact absurd h (by simp)
  · rename_i id s1 k1 he
    split at h
    · exact absurd h (by simp)
    · rename_i rest s3 k3 hr
      simp only [Option.some.injEq, Prod.mk.injEq] at h
      obtain ⟨hids, hs, hk⟩ := h
      exact ⟨id, s1, k1, rest, he, by rw [hr, hs, hk], by rw [← hids]⟩

/-! ### Claim theorems -/

/-- C1: every value returned by `TimestampSeq.next_id` equals
`((wall_clock_ms - EPOCH) << SEQUENCE_BITS) | masked_sequence` in
64-bit arithmetic, where `masked_sequence` is the pre-increment shared
sequence counter masked to the low `sb` bits and `wall_clock_ms` is
the final wall-clock reading of the call (the reading at index
`k1 - 1`: the initial read, or the re-read after a rollover wait),
here at or after `EPOCH`. -/
theorem next_id_returns_packed_id (sb : Nat) (clock : Nat → Nat) (fuel : Nat)
    (s : TimestampSeq) (k : Nat) (id : Nat) (s1 : TimestampSeq) (k1 : Nat)
    (h : TimestampSeq.next_id sb clock fuel s k = some (id, s1, k1))
    (hE : EPOCH ≤ getTimestamp clock (k1 - 1)) :
    id = ((getTimestamp clock (k1 - 1) - EPOCH) <<< sb) % U64 |||
      (s.sequence &&& SEQUENCE_MASK sb) := by
  obtain ⟨hid, -, -, -, -⟩ := next_id_some_parts sb clock fuel s k id s1 k1 h
  rw [hid]
  unfold packId TIMESTAMP_SHIFT
  rw [wrapSub_epoch_eq _ hE (getTimestamp_lt clock (k1 - 1))]

theorem next_id_returns_packed_id_witness :
    TimestampSeq.next_id 12 linClock 1 TimestampSeq.new 0 =
      some (0, ⟨1, EPOCH⟩, 1) ∧
    EPOCH ≤ getTimestamp linClock (1 - 1) ∧
    (0 : Nat) = ((getTimestamp linClock (1 - 1) - EPOCH) <<< 12) % U64 |||
      (TimestampSeq.new.sequence &&& SEQUENCE_MASK 12) :=
  ⟨by decide, by decide,
    next_id_returns_packed_id 12 linClock 1 TimestampSeq.new 0 0 ⟨1, EPOCH⟩ 1
      (by decide) (by decide)⟩

/-- C2: `into_parts` is a bit-exact left inverse of the packing: for a
timestamp component whose shift does not overflow 64 bits and a
sequence component below `2 ^ sb`, it recovers both exactly. -/
theorem into_parts_left_inverse (sb t s : Nat) (ht : t <<< sb < U64)
    (hs : s < 2 ^ sb) : into_parts sb ((t <<< sb) ||| s) = (t, s) := by
  unfold into_parts TIMESTAMP_SHIFT
  rw [or_shiftLeft_eq_add sb t s hs, SEQUENCE_MASK_eq,
    Nat.and_pow_two_sub_one_eq_mod, Nat.shiftRight_eq_div_pow]
  have hdiv : (t * 2 ^ sb + s) / 2 ^ sb = t := by
    rw [Nat.mul_comm, Nat.mul_add_div (pow_pos (by norm_num) sb),
      Nat.div_eq_of_lt hs, Nat.add_zero]
  have hmod : (t * 2 ^ sb + s) % 2 ^ sb = s := by
    rw [Nat.mul_comm, Nat.mul_add_mod]
    exact Nat.mod_eq_of_lt hs
  rw [hdiv, hmod]

theorem into_parts_left_inverse_witness :
    (5 : Nat) <<< 12 < U64 ∧ (7 : Nat) < 2 ^ 12 ∧
    into_parts 12 (((5 : Nat) <<< 12) ||| 7) = (5, 7) :=
  ⟨by decide, by decide, into_parts_left_inverse 12 5 7 (by decide) (by decide)⟩

/-- C9: `Seq.reset` stores 0 into the counter, and a reset followed by
`Seq.next_id` returns 0, whatever the counter held before. -/
theorem seq_reset_then_next_id_zero (s : Seq) :
    (Seq.reset s).counter = 0 ∧ ((Seq.reset s).next_id).1 = 0 :=
  ⟨rfl, rfl⟩

/-- C10: a call of `TimestampSeq.next_id` whose masked sequence is
nonzero leaves `last_cycle_timestamp` unchanged and performs exactly
one clock read (no wait), while the sequence counter advances by
exactly one (modulo `2 ^ 64`) on every completed call. -/
theorem next_id_frame_condition (sb : Nat) (clock : Nat → Nat) (fuel : Nat)
    (s : TimestampSeq) (k : Nat) (id : Nat) (s1 : TimestampSeq) (k1 : Nat)
    (h : TimestampSeq.next_id sb clock fuel s k = some (id, s1, k1)) :
    s1.sequence = (s.sequence + 1) % U64 ∧
    (s.sequence &&& SEQUENCE_MASK sb ≠ 0 →
      s1.last_cycle_timestamp = s.last_cycle_timestamp ∧ k1 = k + 1) := by
  obtain ⟨-, hseq, -, -, hfr⟩ := next_id_some_parts sb clock fuel s k id s1 k1 h
  exact ⟨hseq, hfr⟩

theorem next_id_frame_condition_witness :
    TimestampSeq.next_id 12 linClock 0 ⟨1, 77⟩ 0 = some (1, ⟨2, 77⟩, 1) ∧
    (⟨2, 77⟩ : TimestampSeq).sequence = ((⟨1, 77⟩ : TimestampSeq).sequence + 1) % U64 ∧
    ((⟨1, 77⟩ : TimestampSeq).sequence &&& SEQUENCE_MASK 12 ≠ 0 →
      (⟨2, 77⟩ : TimestampSeq).last_cycle_timestamp =
        (⟨1, 77⟩ : TimestampSeq).last_cycle_timestamp ∧ (1 : Nat) = 0 + 1) :=
  ⟨by decide,
    next_id_frame_condition 12 linClock 0 ⟨1, 77⟩ 0 1 ⟨2, 77⟩ 1 (by decide)⟩

/-- C5: the `last_cycle_timestamp` ratchet.  No completed call of
`TimestampSeq.next_id` decreases the field; when the rollover path
writes it, the stored value is the maximum of the current value and
the newly read wall-clock time (`fetch_max`); and under any
interleaving of `fetch_max` writes (the only writes the field ever
receives) the field never moves backwards. -/
theorem last_cycle_timestamp_ratchet :
    (∀ (sb : Nat) (clock : Nat → Nat) (fuel : Nat) (s : TimestampSeq)
      (k id : Nat) (s1 : TimestampSeq) (k1 : Nat),
      TimestampSeq.next_id sb clock fuel s k = some (id, s1, k1) →
      s.last_cycle_timestamp ≤ s1.last_cycle_timestamp ∧
      (s.sequence &&& SEQUENCE_MASK sb = 0 →
        s1.last_cycle_timestamp =
          fetchMax s.last_cycle_timestamp (getTimestamp clock (k1 - 1)))) ∧
    (∀ (v : Nat) (ws : List Nat), v ≤ List.foldl fetchMax v ws) := by
  constructor
  · intro sb clock fuel s k id s1 k1 h
    obtain ⟨-, -, -, hz, hnz⟩ := next_id_some_parts sb clock fuel s k id s1 k1 h
    refine ⟨?_, hz⟩
    by_cases h0 : s.sequence &&& SEQUENCE_MASK sb = 0
    · rw [hz h0]
      exact Nat.le_max_left _ _
    · rw [(hnz h0).1]
  · intro v ws
    induction ws generalizing v with
    | nil => exact Nat.le_refl v
    | cons w ws ih =>
      simp only [List.foldl_cons]
      exact Nat.le_trans (Nat.le_max_left v w) (ih (fetchMax v w))

theorem last_cycle_timestamp_ratchet_witness :
    TimestampSeq.next_id 12 linClock 1 TimestampSeq.new 0 =
      some (0, ⟨1, EPOCH⟩, 1) ∧
    (TimestampSeq.new.last_cycle_timestamp ≤
        (⟨1, EPOCH⟩ : TimestampSeq).last_cycle_timestamp ∧
      (TimestampSeq.new.sequence &&& SEQUENCE_MASK 12 = 0 →
        (⟨1, EPOCH⟩ : TimestampSeq).last_cycle_timestamp =
          fetchMax TimestampSeq.new.last_cycle_timestamp
            (getTimestamp linClock (1 - 1)))) ∧
    (3 : Nat) ≤ List.foldl fetchMax 3 [1, 5] :=
  ⟨by decide,
    last_cycle_timestamp_ratchet.1 12 linClock 1 TimestampSeq.new 0 0
      ⟨1, EPOCH⟩ 1 (by decide),
    last_cycle_timestamp_ratchet.2 3 [1, 5]⟩

/-- C6: the generator never blocks indefinitely under a live clock and
never returns an error.  The busy wait returns as soon as a reading
strictly exceeds the stored `last_cycle_timestamp` (its exit reading
exceeds it and every earlier reading of the loop did not); a reading
above the stored value within the fuel window makes the loop exit; and
a completed `next_id` exists whenever the clock eventually strictly
exceeds the stored `last_cycle_timestamp` within the fuel window. -/
theorem next_id_terminates_under_live_clock :
    (∀ (clock : Nat → Nat) (last fuel k k1 : Nat),
      spinWait clock last k fuel = some k1 →
      last < getTimestamp clock (k1 - 1) ∧
        ∀ j, k ≤ j → j < k1 - 1 → getTimestamp clock j ≤ last) ∧
    (∀ (clock : Nat → Nat) (last fuel k j : Nat),
      k ≤ j → last < getTimestamp clock j → j < k + fuel →
      (spinWait clock last k fuel).isSome) ∧
    (∀ (sb : Nat) (clock : Nat → Nat) (fuel : Nat) (s : TimestampSeq)
      (k j : Nat), k + 1 ≤ j →
      s.last_cycle_timestamp < getTimestamp clock j → j < k + 1 + fuel →
      (TimestampSeq.next_id sb clock fuel s k).isSome) := by
  refine ⟨?_, ?_, ?_⟩
  · intro clock last fuel k k1 h
    obtain ⟨-, h2, h3⟩ := spinWait_some_spec clock last fuel k k1 h
    exact ⟨h2, h3⟩
  · intro clock last fuel k j h1 h2 h3
    exact spinWait_isSome clock last fuel k j h1 h2 h3
  · intro sb clock fuel s k j h1 h2 h3
    by_cases h0 : s.sequence &&& SEQUENCE_MASK sb = 0
    · by_cases heq : s.last_cycle_timestamp = getTimestamp clock k
      · have hs := spinWait_isSome clock s.last_cycle_timestamp fuel (k + 1)
          j h1 h2 h3
        cases hw : spinWait clock s.last_cycle_timestamp (k + 1) fuel with
        | none =>
          rw [hw] at hs
          simp at hs
        | some kw =>
          rw [next_id_cycle_wait sb clock fuel s k kw h0 heq hw]
          rfl
      · rw [next_id_cycle_nowait sb clock fuel s k h0 heq]
        rfl
    · rw [next_id_masked_ne sb clock fuel s k h0]
      rfl

theorem next_id_terminates_under_live_clock_witness :
    spinWait linClock 0 0 1 = some 1 ∧
    (0 : Nat) < getTimestamp linClock (1 - 1) ∧
    (0 : Nat) + 1 ≤ 1 ∧
    TimestampSeq.new.last_cycle_timestamp < getTimestamp linClock 1 ∧
    (1 : Nat) < 0 + 1 + 1 ∧
    (TimestampSeq.next_id 1 linClock 1 TimestampSeq.new 0).isSome :=
  ⟨by decide,
    (next_id_terminates_under_live_clock.1 linClock 0 1 0 1 (by decide)).1,
    by decide, by decide, by decide,
    next_id_terminates_under_live_clock.2.2 1 linClock 1 TimestampSeq.new 0 1
      (by decide) (by decide) (by decide)⟩

/-- Values and final counter of a sequential run of `Seq.next_id`. -/
theorem seq_run_spec :
    ∀ (n seed : Nat), seed < U64 →
      (Seq.run n (Seq.fromVal seed)).1 =
        (List.range n).map (fun i => (seed + i) % U64) ∧
      (Seq.run n (Seq.fromVal seed)).2.counter = (seed + n) % U64 := by
  intro n
  induction n with
  | zero =>
    intro seed h
    refine ⟨rfl, ?_⟩
    simp only [Seq.run, Seq.fromVal]
    rw [Nat.add_zero, Nat.mod_eq_of_lt h]
  | succ n ih =>
    intro seed h
    have hs1 : (seed + 1) % U64 < U64 := Nat.mod_lt _ U64_pos
    obtain ⟨ih1, ih2⟩ := ih ((seed + 1) % U64) hs1
    have hstep : ∀ i : Nat, ((seed + 1) % U64 + i) % U64 = (seed + (i + 1)) % U64 := by
      intro i
      rw [Nat.mod_add_mod, Nat.add_assoc, Nat.add_comm 1 i]
    constructor
    · show seed :: (Seq.run n (Seq.fromVal ((seed + 1) % U64))).1 = _
      rw [ih1, List.range_succ_eq_map, List.map_cons, List.map_map]
      simp only [hstep]
      rw [Nat.add_zero, Nat.mod_eq_of_lt h]
      rfl
    · show (Seq.run n (Seq.fromVal ((seed + 1) % U64))).2.counter = _
      rw [ih2, hstep]

/-- C8: a `Seq` seeded at `seed` (with `Seq.new` the seed-0 case)
returns on each call the counter value before the increment, so `n`
sequential calls return `seed, seed + 1, …` wrapping silently modulo
`2 ^ 64`, and each call advances the counter by exactly one modulo
`2 ^ 64`. -/
theorem seq_next_id_sequential_values (seed n : Nat) (hseed : seed < U64) :
    (Seq.run n (Seq.fromVal seed)).1 =
      (List.range n).map (fun i => (seed + i) % U64) ∧
    (Seq.run n (Seq.fromVal seed)).2.counter = (seed + n) % U64 ∧
    Seq.new = Seq.fromVal 0 ∧
    (∀ s : Seq, (Seq.next_id s).1 = s.counter ∧
      (Seq.next_id s).2.counter = (s.counter + 1) % U64) := by
  obtain ⟨h1, h2⟩ := seq_run_spec n seed hseed
  exact ⟨h1, h2, rfl, fun s => ⟨rfl, rfl⟩⟩

theorem seq_next_id_sequential_values_witness :
    (5 : Nat) < U64 ∧
    ((Seq.run 3 (Seq.fromVal 5)).1 =
        (List.range 3).map (fun i => (5 + i) % U64) ∧
      (Seq.run 3 (Seq.fromVal 5)).2.counter = (5 + 3) % U64 ∧
      Seq.new = Seq.fromVal 0 ∧
      (∀ s : Seq, (Seq.next_id s).1 = s.counter ∧
        (Seq.next_id s).2.counter = (s.counter + 1) % U64)) :=
  ⟨by decide, seq_next_id_sequential_values 5 3 (by decide)⟩

/-- C4 counterexample: with the system clock one millisecond before
`EPOCH`, `TimestampSeq.next_id` neither rejects nor saturates: it
returns the id `2 ^ 64 - 2 ^ 12`, which is exactly the wrapped
(modulo `2 ^ 64`) timestamp difference shifted into place, and not the
id `0` that a saturating (truncated) subtraction would produce. -/
theorem pre_epoch_wrap_counterexample :
    preEpochClock 0 < EPOCH ∧
    TimestampSeq.next_id 12 preEpochClock 0 TimestampSeq.new 0 =
      some (U64 - 2 ^ 12, ⟨1, EPOCH - 1⟩, 1) ∧
    U64 - 2 ^ 12 =
      ((((EPOCH - 1) + (U64 - EPOCH)) % U64) * 2 ^ 12) % U64 ∧
    ¬ U64 - 2 ^ 12 = (((EPOCH - 1) - EPOCH) <<< 12) % U64 ||| 0 :=
  ⟨by decide, by decide, by decide, by decide⟩

/-- C4 amended: when the wall-clock reading used by a call is strictly
before `EPOCH`, `TimestampSeq.next_id` still returns an id, computed
from the subtraction wrapped modulo `2 ^ 64` (release-mode Rust
semantics; builds with overflow checks panic instead); it does not
saturate. -/
theorem pre_epoch_id_wrapped (sb : Nat) (clock : Nat → Nat) (fuel : Nat)
    (s : TimestampSeq) (k : Nat) (id : Nat) (s1 : TimestampSeq) (k1 : Nat)
    (h : TimestampSeq.next_id sb clock fuel s k = some (id, s1, k1))
    (hlt : getTimestamp clock (k1 - 1) < EPOCH) :
    id = (((getTimestamp clock (k1 - 1) + (U64 - EPOCH)) % U64) <<< sb) % U64 |||
      (s.sequence &&& SEQUENCE_MASK sb) := by
  obtain ⟨hid, -, -, -, -⟩ := next_id_some_parts sb clock fuel s k id s1 k1 h
  rw [hid]
  unfold packId TIMESTAMP_SHIFT wrapSub
  rw [Nat.mod_eq_of_lt EPOCH_lt_U64]

theorem pre_epoch_id_wrapped_witness :
    TimestampSeq.next_id 12 preEpochClock 0 TimestampSeq.new 0 =
      some (U64 - 2 ^ 12, ⟨1, EPOCH - 1⟩, 1) ∧
    getTimestamp preEpochClock (1 - 1) < EPOCH ∧
    U64 - 2 ^ 12 =
      (((getTimestamp preEpochClock (1 - 1) + (U64 - EPOCH)) % U64) <<< 12) %
          U64 |||
        (TimestampSeq.new.sequence &&& SEQUENCE_MASK 12) :=
  ⟨by decide, by decide,
    pre_epoch_id_wrapped 12 preEpochClock 0 TimestampSeq.new 0 (U64 - 2 ^ 12)
      ⟨1, EPOCH - 1⟩ 1 (by decide) (by decide)⟩

/-- Packed ids with distinct masked sequence components are distinct. -/
theorem packId_ne_of_seq_ne (sb ta tb sa sc : Nat) (h64 : sb ≤ 64)
    (ha : sa < 2 ^ sb) (hb : sc < 2 ^ sb) (hne : sa ≠ sc) :
    packId sb ta sa ≠ packId sb tb sc := by
  intro heq
  have hmm := congrArg (fun x => x % 2 ^ sb) heq
  simp only at hmm
  rw [packId_mod sb ta sa h64 ha, packId_mod sb tb sc h64 hb] at hmm
  exact hne hmm

/-- C3 counterexample: in the `SEQUENCE_BITS = 1` test configuration
there is a never-decreasing wall clock, everywhere at or after
`EPOCH` and in range, under which four sequential calls on a fresh
instance repeat an id: the run yields `[0, 11, 10, 11]`, whose second
and fourth entries coincide (the clock jumps five milliseconds after
the first read, so the rollover guard, which only remembers the
timestamp of the cycle start, does not force a fresh millisecond). -/
theorem fourth_id_repeats_counterexample :
    (∀ j, EPOCH ≤ jumpStallClock j) ∧
    (∀ j, jumpStallClock j < EPOCH + 2 ^ 63) ∧
    (∀ j, jumpStallClock j ≤ jumpStallClock (j + 1)) ∧
    runIds 1 jumpStallClock 4 4 TimestampSeq.new 0 =
      some ([0, 11, 10, 11], ⟨4, EPOCH + 5⟩, 4) ∧
    ¬ ([0, 11, 10, 11] : List Nat).Nodup := by
  have h63 : (0 : Nat) < 2 ^ 63 := by norm_num
  refine ⟨?_, ?_, ?_, by decide, by decide⟩
  · intro j
    unfold jumpStallClock
    split
    · exact Nat.le_refl _
    · exact Nat.le_add_right _ _
  · intro j
    unfold jumpStallClock
    split
    · omega
    · omega
  · intro j
    unfold jumpStallClock
    split <;> split <;> omega

/-- C3 amended: on a fresh generator, three sequential calls in the
production configuration (`SEQUENCE_BITS = 12`) always produce
pairwise-distinct ids; in the `SEQUENCE_BITS = 1` test configuration,
four sequential calls produce pairwise-distinct ids under a
never-decreasing in-range wall clock at or after `EPOCH`, provided
additionally that the first two calls read the same millisecond
(back-to-back calls).  Without the same-millisecond proviso the second
and fourth ids can coincide. -/
theorem sequential_ids_distinct (clock : Nat → Nat) (fuel : Nat) :
    (∀ ids sF kF,
      runIds 12 clock fuel 3 TimestampSeq.new 0 = some (ids, sF, kF) →
      ids.Nodup) ∧
    ((∀ j, EPOCH ≤ clock j) → (∀ j, clock j < EPOCH + 2 ^ 63) →
      (∀ j, clock j ≤ clock (j + 1)) → clock 0 = clock 1 →
      ∀ ids sF kF,
        runIds 1 clock fuel 4 TimestampSeq.new 0 = some (ids, sF, kF) →
        ids.Nodup) := by
  constructor
  · intro ids sF kF h
    obtain ⟨i1, st1, c1, r1, h1, hrun1, e1⟩ :=
      runIds_succ_some 12 clock fuel 2 TimestampSeq.new 0 ids sF kF h
    obtain ⟨i2, st2, c2, r2, h2, hrun2, e2⟩ :=
      runIds_succ_some 12 clock fuel 1 st1 c1 r1 sF kF hrun1
    obtain ⟨i3, st3, c3, r3, h3, hrun3, e3⟩ :=
      runIds_succ_some 12 clock fuel 0 st2 c2 r2 sF kF hrun2
    rw [runIds_zero] at hrun3
    simp only [Option.some.injEq, Prod.mk.injEq] at hrun3
    obtain ⟨hr3, -⟩ := hrun3
    obtain ⟨hi1, hs1, -, -, -⟩ :=
      next_id_some_parts 12 clock fuel TimestampSeq.new 0 i1 st1 c1 h1
    obtain ⟨hi2, hs2, -, -, -⟩ :=
      next_id_some_parts 12 clock fuel st1 c1 i2 st2 c2 h2
    obtain ⟨hi3, -, -, -, -⟩ :=
      next_id_some_parts 12 clock fuel st2 c2 i3 st3 c3 h3
    have hm1 : TimestampSeq.new.sequence &&& SEQUENCE_MASK 12 = 0 := by decide
    have hq1 : st1.sequence = 1 := by
      rw [hs1]
      decide
    have hq2 : st2.sequence = 2 := by
      rw [hs2, hq1]
      decide
    rw [hm1] at hi1
    rw [hq1, show (1 : Nat) &&& SEQUENCE_MASK 12 = 1 from by decide] at hi2
    rw [hq2, show (2 : Nat) &&& SEQUENCE_MASK 12 = 2 from by decide] at hi3
    have d12 : packId 12 (getTimestamp clock (c1 - 1)) 0 ≠
        packId 12 (getTimestamp clock (c2 - 1)) 1 :=
      packId_ne_of_seq_ne 12 _ _ 0 1 (by norm_num) (by norm_num) (by norm_num)
        (by norm_num)
    have d13 : packId 12 (getTimestamp clock (c1 - 1)) 0 ≠
        packId 12 (getTimestamp clock (c3 - 1)) 2 :=
      packId_ne_of_seq_ne 12 _ _ 0 2 (by norm_num) (by norm_num) (by norm_num)
        (by norm_num)
    have d23 : packId 12 (getTimestamp clock (c2 - 1)) 1 ≠
        packId 12 (getTimestamp clock (c3 - 1)) 2 :=
      packId_ne_of_seq_ne 12 _ _ 1 2 (by norm_num) (by norm_num) (by norm_num)
        (by norm_num)
    rw [e1, e2, e3, ← hr3, hi1, hi2, hi3]
    simp [List.nodup_cons, d12, d13, d23]
  · intro hEc hBc hMc h01 ids sF kF h
    have hEU : EPOCH + 2 ^ 63 < U64 := by
      unfold EPOCH U64
      norm_num
    have hltU : ∀ i, clock i < U64 := by
      intro i
      have := hBc i
      omega
    have hgt : ∀ i, getTimestamp clock i = clock i := fun i =>
      Nat.mod_eq_of_lt (hltU i)
    have hEpos : 0 < EPOCH := by
      unfold EPOCH
      norm_num
    have hmono := monotone_nat_of_le_succ hMc
    obtain ⟨i1, st1, c1, r1, h1, hrun1, e1⟩ :=
      runIds_succ_some 1 clock fuel 3 TimestampSeq.new 0 ids sF kF h
    obtain ⟨i2, st2, c2, r2, h2, hrun2, e2⟩ :=
      runIds_succ_some 1 clock fuel 2 st1 c1 r1 sF kF hrun1
    obtain ⟨i3, st3, c3, r3, h3, hrun3, e3⟩ :=
      runIds_succ_some 1 clock fuel 1 st2 c2 r2 sF kF hrun2
    obtain ⟨i4, st4, c4, r4, h4, hrun4, e4⟩ :=
      runIds_succ_some 1 clock fuel 0 st3 c3 r3 sF kF hrun3
    rw [runIds_zero] at hrun4
    simp only [Option.some.injEq, Prod.mk.injEq] at hrun4
    obtain ⟨hr4, -⟩ := hrun4
    have hm1 : TimestampSeq.new.sequence &&& SEQUENCE_MASK 1 = 0 := by decide
    have hne1 : TimestampSeq.new.last_cycle_timestamp ≠ getTimestamp clock 0 := by
      show (0 : Nat) ≠ getTimestamp clock 0
      rw [hgt 0]
      have := hEc 0
      omega
    have hc1 := next_id_cycle_nowait 1 clock fuel TimestampSeq.new 0 hm1 hne1
    rw [h1] at hc1
    simp only [Option.some.injEq, Prod.mk.injEq] at hc1
    obtain ⟨hi1, hst1, hc1e⟩ := hc1
    have hst1seq : st1.sequence = 1 := by
      rw [hst1]
      show (TimestampSeq.new.sequence + 1) % U64 = 1
      decide
    have hst1last : st1.last_cycle_timestamp = clock 0 := by
      rw [hst1]
      show fetchMax TimestampSeq.new.last_cycle_timestamp
        (getTimestamp clock 0) = clock 0
      rw [hgt 0]
      exact Nat.zero_max _
    have hi1a : i1 = packId 1 (clock 0) 0 := by
      rw [hi1, hgt 0]
    have hm2 : st1.sequence &&& SEQUENCE_MASK 1 ≠ 0 := by
      rw [hst1seq]
      decide
    have hc2 := next_id_masked_ne 1 clock fuel st1 c1 hm2
    rw [h2] at hc2
    simp only [Option.some.injEq, Prod.mk.injEq] at hc2
    obtain ⟨hi2, hst2, hc2e⟩ := hc2
    have hi2a : i2 = packId 1 (clock 0) 1 := by
      rw [hi2, hst1seq, show (1 : Nat) &&& SEQUENCE_MASK 1 = 1 from by decide,
        hc1e, hgt 1, ← h01]
    have hst2seq : st2.sequence = 2 := by
      rw [hst2]
      show (st1.sequence + 1) % U64 = 2
      rw [hst1seq]
      decide
    have hst2last : st2.last_cycle_timestamp = clock 0 := by
      rw [hst2]
      show st1.last_cycle_timestamp = clock 0
      exact hst1last
    have hm3 : st2.sequence &&& SEQUENCE_MASK 1 = 0 := by
      rw [hst2seq]
      decide
    obtain ⟨hi3, hs3seq, -, hz3, -⟩ :=
      next_id_some_parts 1 clock fuel st2 c2 i3 st3 c3 h3
    have hge3 : st2.last_cycle_timestamp ≤ getTimestamp clock c2 := by
      rw [hst2last, hgt c2]
      exact hmono (Nat.zero_le c2)
    have hgt3 := next_id_cycle_final_gt 1 clock fuel st2 c2 i3 st3 c3 h3 hm3
      hge3 hMc hltU
    rw [hst2last, hgt (c3 - 1)] at hgt3
    have hi3a : i3 = packId 1 (clock (c3 - 1)) 0 := by
      rw [hi3, hm3, hgt (c3 - 1)]
    have hst3seq : st3.sequence = 3 := by
      rw [hs3seq, hst2seq]
      decide
    have hst3last : st3.last_cycle_timestamp = clock (c3 - 1) := by
      rw [hz3 hm3, hst2last, hgt (c3 - 1)]
      show max (clock 0) (clock (c3 - 1)) = clock (c3 - 1)
      exact max_eq_right (Nat.le_of_lt hgt3)
    have hm4 : st3.sequence &&& SEQUENCE_MASK 1 ≠ 0 := by
      rw [hst3seq]
      decide
    have hc4 := next_id_masked_ne 1 clock fuel st3 c3 hm4
    rw [h4] at hc4
    simp only [Option.some.injEq, Prod.mk.injEq] at hc4
    obtain ⟨hi4, -, -⟩ := hc4
    have hi4a : i4 = packId 1 (clock c3) 1 := by
      rw [hi4, hst3seq, show (3 : Nat) &&& SEQUENCE_MASK 1 = 1 from by decide,
        hgt c3]
    have hT4 : clock (c3 - 1) ≤ clock c3 := hmono (Nat.sub_le c3 1)
    have hP : ∀ t : Nat, EPOCH ≤ t → t < EPOCH + 2 ^ 63 → ∀ sq : Nat, sq < 2 →
        packId 1 t sq = (t - EPOCH) * 2 + sq := by
      intro t ha hb sq hsq
      have h2 : t < EPOCH + 2 ^ (64 - 1) := by
        have he : (2 : Nat) ^ (64 - 1) = 2 ^ 63 := by norm_num
        omega
      have := packId_eq 1 t sq (by norm_num) (by norm_num) ha h2 (by
        have : (2 : Nat) ^ 1 = 2 := by norm_num
        omega)
      simpa using this
    rw [e1, e2, e3, e4, ← hr4, hi1a, hi2a, hi3a, hi4a,
      hP (clock 0) (hEc 0) (hBc 0) 0 (by norm_num),
      hP (clock 0) (hEc 0) (hBc 0) 1 (by norm_num),
      hP (clock (c3 - 1)) (hEc (c3 - 1)) (hBc (c3 - 1)) 0 (by norm_num),
      hP (clock c3) (hEc c3) (hBc c3) 1 (by norm_num)]
    have hA := hEc 0
    have hB := hEc (c3 - 1)
    have hC := hEc c3
    simp only [List.nodup_cons, List.mem_cons, List.mem_singleton,
      List.not_mem_nil, or_false, List.nodup_nil, not_false_eq_true, and_true]
    omega

theorem sequential_ids_distinct_witness :
    (∀ j, EPOCH ≤ stepClock j) ∧ (∀ j, stepClock j < EPOCH + 2 ^ 63) ∧
    (∀ j, stepClock j ≤ stepClock (j + 1)) ∧ stepClock 0 = stepClock 1 ∧
    runIds 1 stepClock 2 4 TimestampSeq.new 0 =
      some ([0, 1, 2, 3], ⟨4, EPOCH + 1⟩, 6) ∧
    ([0, 1, 2, 3] : List Nat).Nodup := by
  have h63 : (0 : Nat) < 2 ^ 63 := by norm_num
  have p1 : ∀ j, EPOCH ≤ stepClock j := by
    intro j
    unfold stepClock
    split
    · exact Nat.le_refl _
    · exact Nat.le_add_right _ _
  have p2 : ∀ j, stepClock j < EPOCH + 2 ^ 63 := by
    intro j
    unfold stepClock
    split <;> omega
  have p3 : ∀ j, stepClock j ≤ stepClock (j + 1) := by
    intro j
    unfold stepClock
    split <;> split <;> omega
  exact ⟨p1, p2, p3, by decide, by decide,
    (sequential_ids_distinct stepClock 2).2 p1 p2 p3 (by decide)
      [0, 1, 2, 3] ⟨4, EPOCH + 1⟩ 6 (by decide)⟩

end Idable
